import Mathlib

/-!
# goapi: the route handlers of `api.go` and the control loop of `main.go`

A shallow embedding of `API.GenerateRoutes` (api.go, lines 195-266) and of
`websocketHandler` (main.go, lines 61-90).

Conventions of the embedding.

* A Go `string` of the description tree is a Lean `String`.  The tree is read
  with `json.Unmarshal`, which yields valid UTF-8, so the runes of a Go string
  are the characters of the Lean string; `goBytes` gives its bytes where the
  code indexes bytes (`strconv.Atoi`).
* Go `int` is 64 bits wide (`intSize = 64`); values are Lean `Int`/`Nat` and
  every place where the library relies on wrap-around is written with an
  explicit `% 2 ^ 64`.
* A handler closure is a piece of data: the code it runs together with the
  values its captured variables hold when a request arrives.  What a captured
  loop variable holds then depends on the Go version, which the source does not
  fix: `GenerateRoutes` takes that meaning as its parameter `loopVar`.
* A `ResponseWriter` records the calls a handler makes on it, and the panic
  with which net/http refuses a status code outside 100..999.
* The blocking exchange `askingQuestions <- q; text := <-responseChan` is the
  constructor `Interaction.ask q k`: the Question sent and the continuation
  applied to the Answer text received.
* The console traces (`fmt.Println`) are left out.
-/

namespace Goapi

/-! ## Data model (api.go, lines 19-132) -/

/-- The struct `Header` (api.go:47). -/
structure Header where
  Name : String := ""
  Value : String := ""
  deriving DecidableEq, Repr

/-- The struct `Model` (api.go:52). -/
structure Model where
  Name : String := ""
  Description : String := ""
  Headers : List Header := []
  Body : String := ""
  Schema : String := ""
  deriving DecidableEq, Repr

/-- The struct `Request` (api.go:77). -/
structure Request where
  Name : String := ""
  Description : String := ""
  Headers : List Header := []
  Body : String := ""
  Schema : String := ""
  deriving DecidableEq, Repr

/-- The struct `Response` (api.go:85): one response variant. -/
structure Response where
  Name : String := ""
  Description : String := ""
  Headers : List Header := []
  Body : String := ""
  Schema : String := ""
  deriving DecidableEq, Repr

/-- The struct `Example` (api.go:70). -/
structure Example where
  Name : String := ""
  Description : String := ""
  Requests : List Request := []
  Responses : List Response := []
  deriving DecidableEq, Repr

/-- The struct `Action` (api.go:93); `Parameters` is not read by the routes. -/
structure Action where
  Name : String := ""
  Description : String := ""
  Method : String := ""
  Headers : List Header := []
  Examples : List Example := []
  deriving DecidableEq, Repr

/-- The struct `Resource` (api.go:102); `Parameters` is not read by the routes. -/
structure Resource where
  Name : String := ""
  Description : String := ""
  UriTemplate : String := ""
  Model : Model := {}
  Headers : List Header := []
  Actions : List Action := []
  deriving DecidableEq, Repr

/-- The struct `ResourceGroup` (api.go:41). -/
structure ResourceGroup where
  Name : String := ""
  Description : String := ""
  Resources : List Resource := []
  deriving DecidableEq, Repr

/-- The struct `API` (api.go:19); `Metadata` and `Content` are not read by the routes. -/
structure API where
  Version : String := ""
  Name : String := ""
  Description : String := ""
  ResourceGroups : List ResourceGroup := []
  deriving DecidableEq, Repr

/-! ## Go maps with string keys and values -/

/-- A `map[string]string`, kept as an association list in ascending key order
(the order in which `encoding/json` emits the entries of a map). -/
abbrev GoMap := List (String × String)

/-- The order `<` of Go on strings: byte by byte, which on UTF-8 text is rune
by rune. -/
def stringLess : List Char → List Char → Bool
  | [], [] => false
  | [], _ :: _ => true
  | _ :: _, [] => false
  | a :: s, b :: t =>
    if a.toNat < b.toNat then true
    else if b.toNat < a.toNat then false
    else stringLess s t

/-- The statement `m[key] = value`. -/
def GoMap.set (key value : String) : GoMap → GoMap
  | [] => [(key, value)]
  | (k, v) :: m =>
    if key = k then (key, value) :: m
    else if stringLess key.data k.data then (key, value) :: (k, v) :: m
    else (k, v) :: GoMap.set key value m

/-- The expression `v, ok := m[key]`. -/
def GoMap.get (key : String) : GoMap → Option String
  | [] => none
  | (k, v) :: m => if key = k then some v else GoMap.get key m

/-- The struct `Question` (api.go:130), `Answers map[string]string`: the field
carries no `json` tag. -/
structure Question where
  Answers : GoMap
  deriving DecidableEq, Repr

/-! ## strconv.Atoi (Go standard library, base 10, 64-bit `int`) -/

/-- The bytes of a Go string: the UTF-8 encoding of its characters. -/
def goBytes (s : String) : List Nat :=
  s.data.flatMap fun c => (String.utf8EncodeChar c).map UInt8.toNat

/-- The errors `strconv.ErrSyntax` and `strconv.ErrRange`. -/
inductive NumError where
  | ErrSyntax
  | ErrRange
  deriving DecidableEq, Repr

/-- Width of `int`. -/
def intSize : Nat := 64

/-- The constant `math.MaxUint64`. -/
def maxUint64 : Nat := 2 ^ 64 - 1

/-- Conversion `int64(u)` of a `uint64`. -/
def toInt64 (u : Nat) : Int :=
  if u % 2 ^ 64 < 2 ^ 63 then ((u % 2 ^ 64 : Nat) : Int) else ((u % 2 ^ 64 : Nat) : Int) - 2 ^ 64

/-- Negation `-n` of an `int64`. -/
def negInt64 (n : Int) : Int :=
  if n = -(2 ^ 63) then n else -n

/-- The loop of `strconv.ParseUint(s, 10, 0)` over the bytes of `s`, with the
accumulator `n`; `cutoff = maxUint64/10 + 1` and `maxVal = 1<<64 - 1`. -/
def parseUintLoop (n : Nat) : List Nat → Nat × Option NumError
  | [] => (n, none)
  | c :: rest =>
    if 48 ≤ c ∧ c ≤ 57 then
      let d := c - 48
      if n ≥ maxUint64 / 10 + 1 then (maxUint64, some .ErrRange)
      else
        let n10 := (n * 10) % 2 ^ 64
        let n1 := (n10 + d) % 2 ^ 64
        if n1 < n10 ∨ n1 > maxUint64 then (maxUint64, some .ErrRange)
        else parseUintLoop n1 rest
    else
      -- a letter gives a digit value of at least 10 = base, any other byte is
      -- no digit at all: both are syntax errors
      (0, some .ErrSyntax)

/-- The call `strconv.ParseUint(s, 10, 0)` on the bytes of `s`. -/
def ParseUint (s : List Nat) : Nat × Option NumError :=
  if s = [] then (0, some .ErrSyntax) else parseUintLoop 0 s

/-- The call `strconv.ParseInt(s, 10, 0)` on the bytes of `s`. -/
def ParseInt (s : List Nat) : Int × Option NumError :=
  match s with
  | [] => (0, some .ErrSyntax)
  | s0 :: tail =>
    let neg := decide (s0 = 45)
    let s1 := if s0 = 43 ∨ s0 = 45 then tail else s
    let (un, err) := ParseUint s1
    if err ≠ none ∧ err ≠ some .ErrRange then (0, err)
    else
      let cutoff := 2 ^ (intSize - 1)
      if !neg ∧ un ≥ cutoff then (((cutoff - 1 : Nat) : Int), some .ErrRange)
      else if neg ∧ un > cutoff then (-((cutoff : Nat) : Int), some .ErrRange)
      else
        let n := toInt64 un
        (if neg then negInt64 n else n, none)

/-- The digit loop of the fast path of `strconv.Atoi`; it runs on fewer than
19 bytes, so `n*10 + int(ch)` stays below `10^18` and cannot overflow. -/
def atoiFastLoop (n : Nat) : List Nat → Option Nat
  | [] => some n
  | ch :: rest =>
    let ch := (ch + 256 - 48) % 256
    if ch > 9 then none else atoiFastLoop (n * 10 + ch) rest

/-- The call `strconv.Atoi(s)` on the bytes of `s`: the value and the error. -/
def atoiBytes (s : List Nat) : Int × Option NumError :=
  if 0 < s.length ∧ s.length < 19 then
    match s with
    | [] => (0, some .ErrSyntax)
    | s0 :: tail =>
      let s1 := if s0 = 45 ∨ s0 = 43 then tail else s
      if (s0 = 45 ∨ s0 = 43) ∧ s1.length < 1 then (0, some .ErrSyntax)
      else
        match atoiFastLoop 0 s1 with
        | none => (0, some .ErrSyntax)
        | some n => (if s0 = 45 then -(n : Int) else (n : Int), none)
  else ParseInt s

/-- The call `strconv.Atoi(s)`. -/
def Atoi (s : String) : Int × Option NumError :=
  atoiBytes (goBytes s)

/-! ## regexp (Go standard library): the fragment used by the handler -/

/-- Abstract syntax of the regular expressions needed for the pattern
`\[.*\]\[\]`; `noMatch` and `eps` only arise as derivatives. -/
inductive Regex where
  | noMatch
  | eps
  | lit (c : Char)
  | dot
  | alt (r s : Regex)
  | cat (r s : Regex)
  | star (r : Regex)
  deriving DecidableEq, Repr

/-- Whether the expression matches the empty text. -/
def Regex.nullable : Regex → Bool
  | .noMatch => false
  | .eps => true
  | .lit _ => false
  | .dot => false
  | .alt r s => r.nullable || s.nullable
  | .cat r s => r.nullable && s.nullable
  | .star _ => true

/-- Brzozowski derivative by one rune.  Without the `s` flag, `.` matches any
rune except a line feed. -/
def Regex.deriv (c : Char) : Regex → Regex
  | .noMatch => .noMatch
  | .eps => .noMatch
  | .lit a => if a = c then .eps else .noMatch
  | .dot => if c = '\n' then .noMatch else .eps
  | .alt r s => .alt (r.deriv c) (s.deriv c)
  | .cat r s =>
    if r.nullable then .alt (.cat (r.deriv c) s) (s.deriv c) else .cat (r.deriv c) s
  | .star r => .cat (r.deriv c) (.star r)

/-- Whether the expression matches the whole of `cs`. -/
def Regex.accepts (r : Regex) (cs : List Char) : Bool :=
  (cs.foldl (fun r c => r.deriv c) r).nullable

/-- The method `(*Regexp).MatchString`: whether some substring of `s` matches. -/
def Regex.MatchString (r : Regex) (s : String) : Bool :=
  s.data.tails.any fun t => t.inits.any fun u => r.accepts u

/-- The compiled pattern of api.go:234,
``regexp.MustCompile(`\[.*\]\[\]`)``. -/
def isReferenceToModel : Regex :=
  .cat (.lit '[') (.cat (.star .dot) (.cat (.lit ']') (.cat (.lit '[') (.lit ']'))))

/-! ## net/http: what a handler does to its ResponseWriter and reads of its request -/

/-- The effect of a handler on its `http.ResponseWriter`: the calls
`w.Header().Set(key, value)` in the order made, the code given to the first
`w.WriteHeader`, the bytes given to `w.Write`, and whether `w.WriteHeader`
panicked.  A panic ends the handler: no later call has an effect, and net/http
sends neither status line nor body for the request. -/
structure ResponseWriter where
  headerSets : List (String × String) := []
  status : Option Int := none
  body : String := ""
  panicked : Bool := false
  deriving DecidableEq, Repr

/-- The call `w.Header().Set(key, value)`. -/
def ResponseWriter.Set (w : ResponseWriter) (key value : String) : ResponseWriter :=
  if w.panicked then w else { w with headerSets := w.headerSets ++ [(key, value)] }

/-- The call `w.WriteHeader(code)`.  Only the first call counts, and net/http
refuses a code outside 100..999 with a panic (`checkWriteHeaderCode`: `if code <
100 || code > 999`). -/
def ResponseWriter.WriteHeader (w : ResponseWriter) (code : Int) : ResponseWriter :=
  if w.panicked then w
  else
    match w.status with
    | none =>
      if code < 100 ∨ code > 999 then { w with status := some code, panicked := true }
      else { w with status := some code }
    | some _ => w

/-- The call `w.Write([]byte(s))`. -/
def ResponseWriter.Write (w : ResponseWriter) (s : String) : ResponseWriter :=
  if w.panicked then w else { w with body := w.body ++ s }

/-- An `*http.Request`, reduced to its header: a map from canonical header
name to the values received under it. -/
structure HttpRequest where
  Header : List (String × List String) := []
  deriving DecidableEq, Repr

/-- The call `r.Header.Get(key)` for a `key` already in canonical form (the one literal
the program passes is): the first value under `key`, or `""`. -/
def HttpRequest.HeaderGet (r : HttpRequest) (key : String) : String :=
  match r.Header.lookup key with
  | some (v :: _) => v
  | _ => ""

/-! ## The Interactive Session as seen from a handler -/

/-- What running a piece of handler code amounts to: a runtime panic of the
code itself (an index out of range), a result obtained without touching the
channels, or the send of a Question on `askingQuestions` followed by a receive
on `responseChan` whose text decides the result. -/
inductive Interaction (α : Type) where
  | panic : Interaction α
  | done (a : α) : Interaction α
  | ask (q : Question) (k : String → α) : Interaction α

/-- Continue with `f` once the result is there. -/
def Interaction.map {α β : Type} (f : α → β) : Interaction α → Interaction β
  | .panic => .panic
  | .done a => .done (f a)
  | .ask q k => .ask q fun text => f (k text)

/-- The Question submitted, if one is. -/
def Interaction.asked {α : Type} : Interaction α → Option Question
  | .ask q _ => some q
  | _ => none

/-- The result when the Answer received (if one is awaited) is `text`; `none`
after a panic. -/
def Interaction.result {α : Type} (text : String) : Interaction α → Option α
  | .panic => none
  | .done a => some a
  | .ask _ k => some (k text)

/-! ## API.GenerateRoutes (api.go, lines 195-266) -/

/-- The loop of api.go:207-209 that fills the map of the Question. -/
def buildAnswers (responses : List Response) : GoMap :=
  responses.foldl (fun m response => m.set response.Name response.Body) []

/-- The loop of api.go:217-222: the first response whose `Name` is `text`
replaces `reply`, then `break`. -/
def selectReply (text : String) (reply : Response) : List Response → Response
  | [] => reply
  | response :: rest =>
    if text = response.Name then response else selectReply text reply rest

/-- Lines 202-224 of the handler closure: the value of `reply` at line 226.
`example.Responses[0]` panics on an empty slice. -/
def resolveReply (ex : Example) (stickToHappyPath : Bool) : Interaction Response :=
  match ex.Responses with
  | [] => .panic
  | reply :: _ =>
    if ex.Responses.length > 1 ∧ !stickToHappyPath then
      .ask { Answers := buildAnswers ex.Responses } fun text =>
        if text ≠ "" then selectReply text reply ex.Responses else reply
    else .done reply

/-- Lines 226-242 of the handler closure: headers, status and body written for
the selected `reply`. -/
def writeReply (resource : Resource) (reply : Response) (w : ResponseWriter) :
    ResponseWriter :=
  let w := w.Set "Access-Control-Allow-Origin" "*"
  let w := reply.Headers.foldl (fun w header => w.Set header.Name header.Value) w
  let httpStatus := (Atoi reply.Name).1
  let w := w.WriteHeader httpStatus
  if isReferenceToModel.MatchString reply.Body then w.Write resource.Model.Body
  else w.Write reply.Body

/-- The handler closure of api.go:201-243, run with `resource` and `ex` the
values its captured variables hold when the request arrives. -/
def handler (resource : Resource) (ex : Example) (stickToHappyPath : Bool)
    (_r : HttpRequest) : Interaction ResponseWriter :=
  (resolveReply ex stickToHappyPath).map fun reply => writeReply resource reply {}

/-- The preflight closure of api.go:251-256. -/
def preflight (r : HttpRequest) : Interaction ResponseWriter :=
  let allowHeaders := r.HeaderGet "Access-Control-Request-Headers"
  let w : ResponseWriter := {}
  let w := w.Set "Access-Control-Allow-Origin" "*"
  let w := w.Set "Access-Control-Allow-Headers" allowHeaders
  .done (w.WriteHeader 201)

/-- A closure given to `router.HandleFunc`: its code and the values its
captured variables hold when it runs, once `GenerateRoutes` has returned. -/
inductive HandlerFunc where
  | handler (resource : Resource) (ex : Example) (stickToHappyPath : Bool)
  | preflight
  deriving DecidableEq, Repr

/-- Calling the closure on a request. -/
def HandlerFunc.ServeHTTP : HandlerFunc → HttpRequest → Interaction ResponseWriter
  | .handler resource ex stickToHappyPath, r => Goapi.handler resource ex stickToHappyPath r
  | .preflight, r => Goapi.preflight r

/-- One `router.HandleFunc(path, f).Methods(method)`, with the indices of the
group, resource, action and example of the iteration that made the call. -/
structure Route where
  path : String
  method : String
  f : HandlerFunc
  group : Nat
  resource : Nat
  action : Nat
  ex : Nat
  deriving DecidableEq, Repr

/-- The two meanings Go gives to the variable of a `for ... range` statement.
Nothing under the source tree (no go.mod, no build line) fixes the language
version, so the toolchain decides. -/
inductive LoopVar where
  /-- Go up to 1.21: the statement declares ONE variable, assigned anew in each
  iteration and shared by all closures made in the body. -/
  | perLoop
  /-- Go 1.22 and later: each iteration has a variable of its own. -/
  | perIteration
  deriving DecidableEq, Repr

/-- A statement `for i, x := range xs { body }` whose body creates closures that
refer to `x`.  `body` receives the index, the value of `x` during the iteration
(`cur`) and the value a closure finds in `x` when it runs after the loop has
ended (`captured`): the last element under `perLoop`, the element of its own
iteration under `perIteration`. -/
def forRange {α β : Type} (loopVar : LoopVar) (xs : List α)
    (body : Nat → (cur : α) → (captured : α) → List β) : List β :=
  xs.enum.flatMap fun ix =>
    body ix.1 ix.2
      (match loopVar with
       | .perLoop => xs.getLast?.getD ix.2
       | .perIteration => ix.2)

/-- The method `API.GenerateRoutes`: the routes registered on the router, in order.  The
handlers run only after it has returned (main.go:104-112). -/
def GenerateRoutes (loopVar : LoopVar) (api : API) (cors stickToHappyPath : Bool) :
    List Route :=
  forRange loopVar api.ResourceGroups fun gi group _ =>
    forRange loopVar group.Resources fun ri resource resourceVar =>
      forRange loopVar resource.Actions fun ai action _ =>
        forRange loopVar action.Examples fun ei _ exampleVar =>
          [{ path := resource.UriTemplate, method := action.Method,
             f := .handler resourceVar exampleVar stickToHappyPath,
             group := gi, resource := ri, action := ai, ex := ei }] ++
          (if cors then
            [{ path := resource.UriTemplate, method := "OPTIONS", f := .preflight,
               group := gi, resource := ri, action := ai, ex := ei }]
           else [])

/-! ## encoding/json: `json.Marshal` of a Question (main.go:72) -/

/-- A JSON value, as far as marshalling a Question produces one; how a string
is escaped in the text is left out. -/
inductive Json where
  | null
  | str (s : String)
  | obj (members : List (String × Json))

/-- The value of the member named `key` of a JSON object. -/
def Json.member (key : String) : Json → Option Json
  | .obj members => members.lookup key
  | _ => none

/-- The names of the members of a JSON object. -/
def Json.names : Json → List String
  | .obj members => members.map Prod.fst
  | _ => []

/-- Marshalling of a non-nil `map[string]string`: an object with one member per
entry, in key order. -/
def marshalMap (m : GoMap) : Json :=
  .obj (m.map fun kv => (kv.1, .str kv.2))

/-- The call `json.Marshal(question)` of main.go:72.  A struct is an object
with one member per exported field, named by the `json` tag of the field or,
without a tag, by the Go name of the field. -/
def marshalQuestion (question : Question) : Json :=
  .obj [("Answers", marshalMap question.Answers)]

/-! ## The Interactive Session (main.go:56-90 and api.go:211-215)

`askingQuestions` and `responseChan` are unbuffered channels: a send and a
receive complete together.  The goroutines that use them are the HTTP handlers
on the interactive path and the runs of `websocketHandler`, one per client
connection. -/

/-- Where an HTTP handler on the interactive path stands. -/
inductive AskerState where
  /-- Blocked in `askingQuestions <- q` (api.go:212). -/
  | sending (q : Question)
  /-- Blocked in `text := <-responseChan` (api.go:215). -/
  | receiving
  /-- Past api.go:215 with the text received. -/
  | answered (text : String)
  deriving DecidableEq, Repr

/-- Where one run of `websocketHandler` stands. -/
inductive LoopState where
  /-- Blocked in `question := <-askingQuestions` (main.go:70). -/
  | standingBy
  /-- The Question was marshalled and written to the client (main.go:72-79;
  marshalling a `map[string]string` cannot fail); blocked in `ws.ReadMessage`
  (main.go:81). -/
  | reading (q : Question)
  /-- Blocked in `responseChan <- string(message)` (main.go:88). -/
  | delivering (message : String)
  /-- Left by `return` after `ws.ReadMessage` failed (main.go:82-85). -/
  | returned
  deriving DecidableEq, Repr

/-- The goroutines that take part in the session. -/
structure Session where
  askers : List AskerState := []
  loops : List LoopState := []
  deriving DecidableEq, Repr

/-- What can happen next. -/
inductive Event where
  /-- An HTTP request reaches api.go:212 with the Question `q`. -/
  | request (q : Question)
  /-- A client connects to `/ws` and a run of `websocketHandler` reaches its loop. -/
  | connect
  /-- Handler `i` sends on `askingQuestions` and loop `j` receives. -/
  | take (i j : Nat)
  /-- The call `ws.ReadMessage` of loop `j` returns the text `message`. -/
  | message (j : Nat) (message : String)
  /-- The call `ws.ReadMessage` of loop `j` returns an error. -/
  | readError (j : Nat)
  /-- Loop `j` sends on `responseChan` and handler `i` receives. -/
  | deliver (j i : Nat)
  deriving DecidableEq, Repr

/-- One step of the session; `none` when the event is not enabled. -/
def step (s : Session) : Event → Option Session
  | .request q => some { s with askers := s.askers ++ [.sending q] }
  | .connect => some { s with loops := s.loops ++ [.standingBy] }
  | .take i j =>
    match s.askers[i]?, s.loops[j]? with
    | some (.sending q), some .standingBy =>
      some { askers := s.askers.set i .receiving, loops := s.loops.set j (.reading q) }
    | _, _ => none
  | .message j message =>
    match s.loops[j]? with
    | some (.reading _) => some { s with loops := s.loops.set j (.delivering message) }
    | _ => none
  | .readError j =>
    match s.loops[j]? with
    | some (.reading _) => some { s with loops := s.loops.set j .returned }
    | _ => none
  | .deliver j i =>
    match s.loops[j]?, s.askers[i]? with
    | some (.delivering message), some .receiving =>
      some { askers := s.askers.set i (.answered message), loops := s.loops.set j .standingBy }
    | _, _ => none

/-- An execution: the events in order, from the given state. -/
def run (s : Session) : List Event → Option Session
  | [] => some s
  | e :: es => (step s e).bind fun s1 => run s1 es

/-- Whether the Question of a handler is outstanding: taken from
`askingQuestions`, its Answer not yet delivered on `responseChan`. -/
def AskerState.outstanding : AskerState → Nat
  | .receiving => 1
  | _ => 0

/-- Whether a run of `websocketHandler` has taken a Question for which it has
not delivered an Answer. -/
def LoopState.holding : LoopState → Nat
  | .standingBy => 0
  | _ => 1

/-- The number of Questions outstanding. -/
def outstanding (s : Session) : Nat :=
  (s.askers.map AskerState.outstanding).sum

/-! ## Concrete description trees used below -/

/-- The two-variant example of the round-trip scenario. -/
def okOrMissing : Example :=
  { Responses := [{ Name := "200", Body := "\x7b\"ok\":true\x7d" },
                  { Name := "404", Body := "\x7b\"err\":true\x7d" }] }

/-- A tree whose only action has the two-variant example. -/
def okOrMissingAPI : API :=
  { ResourceGroups := [{ Resources := [{ UriTemplate := "/widgets",
                                          Actions := [{ Method := "GET",
                                                        Examples := [okOrMissing] }] }] }] }

/-- The single-variant example of the scenario `GET /widgets`. -/
def onlyOK : Example :=
  { Responses := [{ Name := "200", Headers := [{ Name := "Content-Type", Value := "application/json" }],
                    Body := "\x7b\"ok\":true\x7d" }] }

/-- An example in which two variants share the Name `200`. -/
def sharedName : Example :=
  { Responses := [{ Name := "200", Body := "first" }, { Name := "200", Body := "second" }] }

/-- An example that declares no response variant (`"responses": []`). -/
def noResponses : Example := { Name := "empty", Responses := [] }

/-- A resource whose only example declares no response. -/
def noResponsesResource : Resource :=
  { UriTemplate := "/widgets", Actions := [{ Method := "GET", Examples := [noResponses] }] }

/-- A tree with one action whose only example declares no response. -/
def noResponsesAPI : API :=
  { ResourceGroups := [{ Resources := [noResponsesResource] }] }

/-- An action with one example of a single variant, whose body is `body`. -/
def getOne (body : String) : Action :=
  { Method := "GET", Examples := [{ Responses := [{ Name := "200", Body := body }] }] }

/-- The first resource of `twoResourcesAPI`. -/
def widgets : Resource :=
  { UriTemplate := "/widgets", Model := { Body := "WIDGET" }, Actions := [getOne "[Widget][]"] }

/-- The second resource of `twoResourcesAPI`. -/
def gadgets : Resource :=
  { UriTemplate := "/gadgets", Model := { Body := "GADGET" }, Actions := [getOne "[Gadget][]"] }

/-- A tree with one group of two resources; each has its own model and one
action with a single variant whose body refers to an array of the model. -/
def twoResourcesAPI : API :=
  { ResourceGroups := [{ Resources := [widgets, gadgets] }] }

/-- An example whose only variant is named by the numeral of `2^63`. -/
def beyondInt : Example :=
  { Responses := [{ Name := toString (9223372036854775808 : Int), Body := "big" }] }

/-- A resource whose only variant is named `OK` and has a body that refers to
an array of the model. -/
def namedOKWidgets : Resource :=
  { UriTemplate := "/widgets", Model := { Body := "WIDGET" },
    Actions := [{ Method := "GET",
                  Examples := [{ Responses := [{ Name := "OK", Body := "[Widget][]" }] }] }] }

/-- A tree with the single resource `namedOKWidgets`. -/
def namedOKAPI : API :=
  { ResourceGroups := [{ Resources := [namedOKWidgets] }] }

/-- An example whose only variant is named `OK`. -/
def namedOK : Example :=
  { Responses := [{ Name := "OK", Body := "fine" }] }

/-! ## Specification side: regular expressions -/

/-- Specification side: the texts a regular expression matches as a whole. -/
inductive Regex.Matches : Regex → List Char → Prop where
  | eps : Matches .eps []
  | lit (c : Char) : Matches (.lit c) [c]
  | dot (c : Char) (h : c ≠ '\n') : Matches .dot [c]
  | altLeft {r s : Regex} {u : List Char} : Matches r u → Matches (.alt r s) u
  | altRight {r s : Regex} {u : List Char} : Matches s u → Matches (.alt r s) u
  | cat {r s : Regex} {u v : List Char} : Matches r u → Matches s v → Matches (.cat r s) (u ++ v)
  | starNil {r : Regex} : Matches (.star r) []
  | starCons {r : Regex} {u v : List Char} :
      Matches r u → Matches (.star r) v → Matches (.star r) (u ++ v)

/-! ## Specification side: decimal numerals -/

/-- Value of a list of decimal digits, most significant first, on top of `acc`. -/
def decimalValue (acc : Nat) (ds : List Nat) : Nat :=
  ds.foldl (fun a d => a * 10 + d) acc

/-- Whether a byte is one of `0` to `9`. -/
def isDigitByte (b : Nat) : Bool := decide (48 ≤ b ∧ b ≤ 57)

/-- Spec side: whether the bytes are an optional sign (`+` or `-`) followed by
a non-empty run of decimal digits. -/
def isDecimalInteger (bs : List Nat) : Bool :=
  match bs with
  | [] => false
  | b :: rest =>
    if b = 43 ∨ b = 45 then !rest.isEmpty && rest.all isDigitByte
    else bs.all isDigitByte

/-- The bytes after an optional leading sign. -/
def dropSign : List Nat → List Nat
  | [] => []
  | b :: rest => if b = 43 ∨ b = 45 then rest else b :: rest

/-- The values of the decimal digits that the bytes start with. -/
def leadingDigits (bs : List Nat) : List Nat :=
  (bs.takeWhile isDigitByte).map fun b => b - 48

/-- Spec side: the value found beside the error when the bytes are no decimal
integer.  It is 0, unless the digits that follow the optional sign reach `2^64`
before the first byte that is no digit: then it is `2^63 - 1`, or `-2^63` after
a minus sign. -/
def valueBesideError (bs : List Nat) : Int :=
  if 2 ^ 64 ≤ decimalValue 0 (leadingDigits (dropSign bs)) then
    if bs.head? = some 45 then -(2 ^ 63) else 2 ^ 63 - 1
  else 0

/-! ## Invariant of the session and a concrete execution -/

/-- The Questions outstanding are those held by the runs of `websocketHandler`. -/
def Session.balanced (s : Session) : Prop :=
  (s.askers.map AskerState.outstanding).sum = (s.loops.map LoopState.holding).sum

/-- Two requests on the interactive path and two connected clients: each run
of `websocketHandler` takes one Question. -/
def twoClients : List Event :=
  [.request { Answers := buildAnswers okOrMissing.Responses },
   .request { Answers := buildAnswers sharedName.Responses },
   .connect, .connect, .take 0 0, .take 1 1]

/-! ## Helper lemmas -/

theorem GoMap.get_set (key k v : String) (m : GoMap) :
    GoMap.get key (GoMap.set k v m) = if key = k then some v else GoMap.get key m := by
  induction m with
  | nil => simp [GoMap.set, GoMap.get]
  | cons kv m ih =>
    obtain ⟨k1, v1⟩ := kv
    by_cases h1 : k = k1
    · subst h1
      by_cases hk : key = k <;> simp [GoMap.set, GoMap.get, hk]
    · by_cases h3 : stringLess k.data k1.data = true
      · by_cases hk : key = k <;> simp [GoMap.set, GoMap.get, hk, h1, h3]
      · by_cases hk : key = k
        · subst hk
          simp [GoMap.set, GoMap.get, h1, h3, ih]
        · simp [GoMap.set, GoMap.get, hk, h1, h3, ih]

theorem get_foldl_set (key : String) (responses : List Response) (m : GoMap) :
    GoMap.get key (responses.foldl (fun m response => m.set response.Name response.Body) m) =
      match responses.reverse.find? (fun v => decide (v.Name = key)) with
      | some v => some v.Body
      | none => GoMap.get key m := by
  induction responses generalizing m with
  | nil => simp
  | cons r rs ih =>
    rw [List.foldl_cons, ih, List.reverse_cons, List.find?_append]
    cases hrs : rs.reverse.find? (fun v => decide (v.Name = key)) with
    | some v => simp
    | none =>
      by_cases hk : r.Name = key
      · simp [GoMap.get_set, hk]
      · have hk2 : ¬ key = r.Name := fun h => hk h.symm
        simp [GoMap.get_set, hk, hk2]

theorem selectReply_eq_find (text : String) (reply : Response) (responses : List Response) :
    selectReply text reply responses =
      (responses.find? fun v => decide (v.Name = text)).getD reply := by
  induction responses with
  | nil => rfl
  | cons r rs ih =>
    by_cases h : text = r.Name
    · simp [selectReply, h]
    · have h2 : ¬ r.Name = text := fun e => h e.symm
      simp [selectReply, h, h2, ih]

theorem lookup_marshalMap (key : String) (m : GoMap) :
    (m.map fun kv => (kv.1, Json.str kv.2)).lookup key = (GoMap.get key m).map Json.str := by
  induction m with
  | nil => rfl
  | cons kv m ih =>
    obtain ⟨k, v⟩ := kv
    by_cases h : key = k
    · simp [GoMap.get, List.lookup, h]
    · have hb : (key == k) = false := by simpa using h
      simp [GoMap.get, List.lookup, h, hb, ih]

theorem sum_map_set {α : Type} (w : α → Nat) (xs : List α) (i : Nat) (a b : α)
    (h : xs[i]? = some a) :
    ((xs.set i b).map w).sum + w a = (xs.map w).sum + w b := by
  induction xs generalizing i with
  | nil => simp at h
  | cons x xs ih =>
    cases i with
    | zero =>
      simp only [List.getElem?_cons_zero, Option.some.injEq] at h
      subst h
      simp only [List.set_cons_zero, List.map_cons, List.sum_cons]
      omega
    | succ i =>
      simp only [List.getElem?_cons_succ] at h
      have := ih i h
      simp only [List.set_cons_succ, List.map_cons, List.sum_cons]
      omega

theorem step_balanced (s s1 : Session) (e : Event) (hs : s.balanced)
    (h : step s e = some s1) : s1.balanced := by
  unfold Session.balanced at hs ⊢
  cases e with
  | request q =>
    simp only [step, Option.some.injEq] at h
    subst h
    simpa [AskerState.outstanding] using hs
  | connect =>
    simp only [step, Option.some.injEq] at h
    subst h
    simpa [LoopState.holding] using hs
  | take i j =>
    simp only [step] at h
    split at h
    · rename_i q ha hl
      simp only [Option.some.injEq] at h
      subst h
      have h1 := sum_map_set AskerState.outstanding s.askers i _ .receiving ha
      have h2 := sum_map_set LoopState.holding s.loops j _ (.reading q) hl
      simp only [AskerState.outstanding, LoopState.holding] at h1 h2 ⊢
      omega
    · simp at h
  | message j message =>
    simp only [step] at h
    split at h
    · rename_i q hl
      simp only [Option.some.injEq] at h
      subst h
      have h2 := sum_map_set LoopState.holding s.loops j _ (.delivering message) hl
      simp only [LoopState.holding] at h2 ⊢
      omega
    · simp at h
  | readError j =>
    simp only [step] at h
    split at h
    · rename_i q hl
      simp only [Option.some.injEq] at h
      subst h
      have h2 := sum_map_set LoopState.holding s.loops j _ .returned hl
      simp only [LoopState.holding] at h2 ⊢
      omega
    · simp at h
  | deliver j i =>
    simp only [step] at h
    split at h
    · rename_i message hl ha
      simp only [Option.some.injEq] at h
      subst h
      have h1 := sum_map_set AskerState.outstanding s.askers i _ (.answered message) ha
      have h2 := sum_map_set LoopState.holding s.loops j _ .standingBy hl
      simp only [AskerState.outstanding, LoopState.holding] at h1 h2 ⊢
      omega
    · simp at h

theorem run_balanced (events : List Event) (s s1 : Session) (hs : s.balanced)
    (h : run s events = some s1) : s1.balanced := by
  induction events generalizing s with
  | nil =>
    simp only [run, Option.some.injEq] at h
    exact h ▸ hs
  | cons e es ih =>
    simp only [run] at h
    cases hstep : step s e with
    | none => simp [hstep] at h
    | some s2 =>
      rw [hstep] at h
      exact ih s2 (step_balanced s s2 e hs hstep) h

theorem holding_sum_le (loops : List LoopState) :
    (loops.map LoopState.holding).sum ≤ loops.length := by
  induction loops with
  | nil => simp
  | cons l ls ih =>
    cases l <;> simp [LoopState.holding] <;> omega

/-! ### strconv.Atoi on decimal numerals and on other names -/

theorem decimalValue_ge (ds : List Nat) (acc : Nat) : acc ≤ decimalValue acc ds := by
  induction ds generalizing acc with
  | nil => exact Nat.le_refl _
  | cons d ds ih =>
    have := ih (acc * 10 + d)
    simp only [decimalValue, List.foldl_cons] at this ⊢
    omega

theorem atoiFastLoop_digits (ds : List Nat) (acc : Nat) (hd : ∀ d ∈ ds, d < 10) :
    atoiFastLoop acc (ds.map fun d => 48 + d) = some (decimalValue acc ds) := by
  induction ds generalizing acc with
  | nil => rfl
  | cons d ds ih =>
    have h1 : d < 10 := hd d (List.mem_cons_self _ _)
    have h2 : (48 + d + 256 - 48) % 256 = d := by omega
    simp only [List.map_cons, atoiFastLoop, h2]
    rw [if_neg (by omega)]
    exact ih _ fun x hx => hd x (List.mem_cons_of_mem _ hx)

theorem parseUintLoop_digits (ds : List Nat) (acc : Nat) (hd : ∀ d ∈ ds, d < 10)
    (hfit : decimalValue acc ds < 2 ^ 64) :
    parseUintLoop acc (ds.map fun d => 48 + d) = (decimalValue acc ds, none) := by
  induction ds generalizing acc with
  | nil => rfl
  | cons d ds ih =>
    have h1 : d < 10 := hd d (List.mem_cons_self _ _)
    have hstep : decimalValue acc (d :: ds) = decimalValue (acc * 10 + d) ds := rfl
    rw [hstep] at hfit ⊢
    have hge := decimalValue_ge ds (acc * 10 + d)
    have hacc : acc * 10 + d < 2 ^ 64 := lt_of_le_of_lt hge hfit
    have e1 : (acc * 10) % 2 ^ 64 = acc * 10 := Nat.mod_eq_of_lt (by omega)
    have e2 : (acc * 10 + (48 + d - 48)) % 2 ^ 64 = acc * 10 + d := by
      rw [Nat.add_sub_cancel_left]
      exact Nat.mod_eq_of_lt hacc
    simp only [List.map_cons, parseUintLoop, e1, e2]
    rw [if_pos (by omega), if_neg (by unfold maxUint64; omega), if_neg (by unfold maxUint64; omega)]
    exact ih _ (fun x hx => hd x (List.mem_cons_of_mem _ hx)) hfit



theorem ParseUint_digits (ds : List Nat) (hne : ds ≠ []) (hd : ∀ d ∈ ds, d < 10)
    (hfit : decimalValue 0 ds < 2 ^ 64) :
    ParseUint (ds.map fun d => 48 + d) = (decimalValue 0 ds, none) := by
  have hne2 : (ds.map fun d => 48 + d) ≠ [] := by simpa using hne
  rw [ParseUint, if_neg hne2]
  exact parseUintLoop_digits ds 0 hd hfit

theorem ParseInt_digits (ds : List Nat) (hne : ds ≠ []) (hd : ∀ d ∈ ds, d < 10)
    (hfit : decimalValue 0 ds < 2 ^ 63) :
    ParseInt (ds.map fun d => 48 + d) = (((decimalValue 0 ds : Nat) : Int), none) := by
  have hu := ParseUint_digits ds hne hd (by omega)
  obtain ⟨d, tl, rfl⟩ := List.exists_cons_of_ne_nil hne
  have h1 : d < 10 := hd d (List.mem_cons_self _ _)
  have hs43 : ¬ (48 + d = 43 ∨ 48 + d = 45) := by omega
  have hn45 : ¬ (48 + d = 45) := by omega
  have hm : decimalValue 0 (d :: tl) % 2 ^ 64 = decimalValue 0 (d :: tl) :=
    Nat.mod_eq_of_lt (by omega)
  simp only [List.map_cons] at hu ⊢
  have hn43 : ¬ (48 + d = 43) := by omega
  simp only [ParseInt, hn43, hn45, or_self, if_false, hu, decide_False, intSize]
  rw [if_neg (by simp), if_neg (by simp; omega), if_neg (by simp)]
  simp only [toInt64, Bool.false_eq_true, if_false, hm, if_pos hfit]

theorem ParseInt_minus_digits (ds : List Nat) (hne : ds ≠ []) (hd : ∀ d ∈ ds, d < 10)
    (hfit : decimalValue 0 ds ≤ 2 ^ 63) :
    ParseInt (45 :: ds.map fun d => 48 + d) = (-((decimalValue 0 ds : Nat) : Int), none) := by
  have hu := ParseUint_digits ds hne hd (by omega)
  have hm : decimalValue 0 ds % 2 ^ 64 = decimalValue 0 ds :=
    Nat.mod_eq_of_lt (by omega)
  simp only [ParseInt, or_true, if_true, hu, decide_True, intSize]
  rw [if_neg (by simp), if_neg (by simp), if_neg (by simp; omega)]
  simp only [if_true, toInt64, negInt64, hm]
  by_cases hlt : decimalValue 0 ds < 2 ^ 63
  · rw [if_pos hlt, if_neg (by omega)]
  · have heq : decimalValue 0 ds = 2 ^ 63 := by omega
    rw [if_neg hlt, heq]
    norm_num

theorem atoiBytes_digits (ds : List Nat) (hne : ds ≠ []) (hd : ∀ d ∈ ds, d < 10)
    (hfit : decimalValue 0 ds < 2 ^ 63) :
    atoiBytes (ds.map fun d => 48 + d) = (((decimalValue 0 ds : Nat) : Int), none) := by
  unfold atoiBytes
  split_ifs with hlen
  · obtain ⟨d, tl, rfl⟩ := List.exists_cons_of_ne_nil hne
    have h1 : d < 10 := hd d (List.mem_cons_self _ _)
    have hs45 : ¬ (48 + d = 45 ∨ 48 + d = 43) := by omega
    have hn45 : ¬ (48 + d = 45) := by omega
    have := atoiFastLoop_digits (d :: tl) 0 hd
    simp only [List.map_cons] at this ⊢
    simp only [if_neg hs45, this, if_neg hn45, hs45, false_and, if_false]
  · exact ParseInt_digits ds hne hd hfit

theorem atoiBytes_minus_digits (ds : List Nat) (hne : ds ≠ []) (hd : ∀ d ∈ ds, d < 10)
    (hfit : decimalValue 0 ds ≤ 2 ^ 63) :
    atoiBytes (45 :: ds.map fun d => 48 + d) = (-((decimalValue 0 ds : Nat) : Int), none) := by
  have hlen0 : 0 < ds.length := List.length_pos.mpr hne
  unfold atoiBytes
  split_ifs with hlen
  · have := atoiFastLoop_digits ds 0 hd
    simp only [true_or, if_true, this, List.length_map]
    rw [if_neg (by omega)]
  · exact ParseInt_minus_digits ds hne hd hfit



theorem decimalValue_append_single (ds : List Nat) (x : Nat) :
    decimalValue 0 (ds ++ [x]) = decimalValue 0 ds * 10 + x := by
  simp [decimalValue, List.foldl_append]

theorem toDigitsCore_digits (fuel n : Nat) (acc : List Char) (h : n < fuel) :
    ∃ ds : List Nat, ds ≠ [] ∧ (∀ d ∈ ds, d < 10) ∧ decimalValue 0 ds = n ∧
      Nat.toDigitsCore 10 fuel n acc = ds.map Nat.digitChar ++ acc := by
  induction fuel generalizing n acc with
  | zero => omega
  | succ fuel ih =>
    by_cases h0 : n / 10 = 0
    · refine ⟨[n % 10], by simp, ?_, ?_, ?_⟩
      · intro d hd
        simp only [List.mem_singleton] at hd
        omega
      · simp only [decimalValue, List.foldl_cons, List.foldl_nil]
        omega
      · simp [Nat.toDigitsCore, h0]
    · obtain ⟨ds, hne, hd, hv, hs⟩ :=
        ih (n / 10) (Nat.digitChar (n % 10) :: acc) (by omega)
      refine ⟨ds ++ [n % 10], by simp, ?_, ?_, ?_⟩
      · intro d hmem
        rcases List.mem_append.mp hmem with hm | hm
        · exact hd d hm
        · simp only [List.mem_singleton] at hm
          omega
      · rw [decimalValue_append_single, hv]
        omega
      · simp [Nat.toDigitsCore, h0, hs]

theorem utf8_digitChar (d : Nat) (h : d < 10) :
    (String.utf8EncodeChar (Nat.digitChar d)).map UInt8.toNat = [48 + d] := by
  interval_cases d <;> rfl

theorem goBytes_digits (ds : List Nat) (hd : ∀ d ∈ ds, d < 10) :
    goBytes ⟨ds.map Nat.digitChar⟩ = ds.map fun d => 48 + d := by
  induction ds with
  | nil => rfl
  | cons d ds ih =>
    have h1 := utf8_digitChar d (hd d (List.mem_cons_self _ _))
    have h2 := ih fun x hx => hd x (List.mem_cons_of_mem _ hx)
    simp only [goBytes, List.map_cons, List.flatMap_cons] at h2 ⊢
    rw [h1, h2]
    rfl

theorem Nat_repr_digits (m : Nat) :
    ∃ ds : List Nat, ds ≠ [] ∧ (∀ d ∈ ds, d < 10) ∧ decimalValue 0 ds = m ∧
      goBytes (toString m) = ds.map fun d => 48 + d := by
  obtain ⟨ds, hne, hd, hv, hs⟩ := toDigitsCore_digits (m + 1) m [] (by omega)
  refine ⟨ds, hne, hd, hv, ?_⟩
  have : toString m = ⟨ds.map Nat.digitChar⟩ := by
    show Nat.repr m = _
    simp [Nat.repr, Nat.toDigits, hs, List.asString]
  rw [this]
  exact goBytes_digits ds hd

theorem goBytes_append (s t : String) : goBytes (s ++ t) = goBytes s ++ goBytes t := by
  simp [goBytes, String.data_append, List.flatMap_append]

theorem Atoi_toString (n : Int) (hlo : -(2 ^ 63) ≤ n) (hhi : n < 2 ^ 63) :
    Atoi (toString n) = (n, none) := by
  cases n with
  | ofNat m =>
    obtain ⟨ds, hne, hd, hv, hs⟩ := Nat_repr_digits m
    have hts : toString (Int.ofNat m) = toString m := rfl
    have hm : m < 2 ^ 63 := by
      have : (m : Int) < 2 ^ 63 := hhi
      exact_mod_cast this
    rw [Atoi, hts, hs, atoiBytes_digits ds hne hd (by omega), hv]
    rfl
  | negSucc m =>
    obtain ⟨ds, hne, hd, hv, hs⟩ := Nat_repr_digits (m + 1)
    have hts : toString (Int.negSucc m) = "-" ++ toString (m + 1) := rfl
    have hm : m + 1 ≤ 2 ^ 63 := by
      have : -(2 ^ 63 : Int) ≤ -((m : Int) + 1) := by
        rw [← Int.negSucc_eq]
        exact hlo
      have h2 : ((m + 1 : Nat) : Int) ≤ 2 ^ 63 := by
        push_cast
        omega
      exact_mod_cast h2
    have h45 : goBytes "-" = [45] := rfl
    rw [Atoi, hts, goBytes_append, hs, h45]
    rw [List.singleton_append, atoiBytes_minus_digits ds hne hd (by omega), hv]
    rfl



theorem atoiFastLoop_cases (bs : List Nat) (acc : Nat) (hb : ∀ b ∈ bs, b < 256) :
    atoiFastLoop acc bs = none ∨
      ((atoiFastLoop acc bs).isSome = true ∧ bs.all isDigitByte = true) := by
  induction bs generalizing acc with
  | nil => right; simp [atoiFastLoop]
  | cons b bs ih =>
    have hb1 : b < 256 := hb b (List.mem_cons_self _ _)
    simp only [atoiFastLoop]
    by_cases h9 : (b + 256 - 48) % 256 > 9
    · left
      rw [if_pos h9]
    · rw [if_neg h9]
      rcases ih (acc * 10 + (b + 256 - 48) % 256)
          (fun x hx => hb x (List.mem_cons_of_mem _ hx)) with h | ⟨h1, h2⟩
      · exact Or.inl h
      · right
        refine ⟨h1, ?_⟩
        have : isDigitByte b = true := by
          simp only [isDigitByte, decide_eq_true_eq]
          omega
        simp [List.all_cons, this, h2]

theorem atoiFast_not_decimal (s0 : Nat) (tail : List Nat) (hb : ∀ b ∈ s0 :: tail, b < 256)
    (hnd : isDecimalInteger (s0 :: tail) = false) :
    (if (s0 = 45 ∨ s0 = 43) ∧ (if s0 = 45 ∨ s0 = 43 then tail else s0 :: tail).length < 1 then
        ((0 : Int), some NumError.ErrSyntax)
      else
        match atoiFastLoop 0 (if s0 = 45 ∨ s0 = 43 then tail else s0 :: tail) with
        | none => (0, some .ErrSyntax)
        | some n => (if s0 = 45 then -(n : Int) else (n : Int), none)).1 = 0 := by
  by_cases hsign : s0 = 45 ∨ s0 = 43
  · have hsign2 : s0 = 43 ∨ s0 = 45 := hsign.symm
    simp only [if_pos hsign, hsign, true_and, if_true]
    cases tail with
    | nil => simp
    | cons t ts =>
      rw [if_neg (by simp)]
      rcases atoiFastLoop_cases (t :: ts) 0 (fun x hx => hb x (List.mem_cons_of_mem _ hx))
        with h | ⟨_, h2⟩
      · rw [h]
      · exfalso
        simp only [isDecimalInteger, if_pos hsign2, h2] at hnd
        simp at hnd
  · have hsign2 : ¬ (s0 = 43 ∨ s0 = 45) := fun h => hsign h.symm
    simp only [if_neg hsign, hsign, false_and, if_false]
    rcases atoiFastLoop_cases (s0 :: tail) 0 hb with h | ⟨_, h2⟩
    · rw [h]
    · exfalso
      simp only [isDecimalInteger, if_neg hsign2] at hnd
      rw [h2] at hnd
      exact Bool.noConfusion hnd

theorem decimalValue_lt (ds : List Nat) (acc : Nat) (hd : ∀ d ∈ ds, d < 10) :
    decimalValue acc ds < (acc + 1) * 10 ^ ds.length := by
  induction ds generalizing acc with
  | nil => simp [decimalValue]
  | cons d ds ih =>
    have h1 : d < 10 := hd d (List.mem_cons_self _ _)
    have h2 := ih (acc * 10 + d) fun x hx => hd x (List.mem_cons_of_mem _ hx)
    have h3 : (acc * 10 + d + 1) * 10 ^ ds.length ≤ (acc + 1) * 10 * 10 ^ ds.length :=
      Nat.mul_le_mul_right _ (by omega)
    have h4 : (acc + 1) * 10 ^ (d :: ds).length = (acc + 1) * 10 * 10 ^ ds.length := by
      rw [List.length_cons, pow_succ]
      ring
    have h5 : decimalValue acc (d :: ds) = decimalValue (acc * 10 + d) ds := rfl
    rw [h5, h4]
    exact lt_of_lt_of_le h2 h3

theorem leadingDigits_lt (bs : List Nat) : ∀ d ∈ leadingDigits bs, d < 10 := by
  intro d hd
  simp only [leadingDigits, List.mem_map] at hd
  obtain ⟨b, hb, rfl⟩ := hd
  have := List.mem_takeWhile_imp hb
  simp only [isDigitByte, decide_eq_true_eq] at this
  omega

theorem leadingDigits_length_le (bs : List Nat) : (leadingDigits bs).length ≤ bs.length := by
  simp only [leadingDigits, List.length_map]
  exact (List.takeWhile_sublist _).length_le

theorem dropSign_length_le (bs : List Nat) : (dropSign bs).length ≤ bs.length := by
  cases bs with
  | nil => simp [dropSign]
  | cons b rest =>
    simp only [dropSign]
    split_ifs <;> simp

/-- Fewer than 19 bytes cannot hold digits that reach `2^64`. -/
theorem valueBesideError_short (bs : List Nat) (hlen : bs.length < 19) :
    valueBesideError bs = 0 := by
  have h1 := decimalValue_lt (leadingDigits (dropSign bs)) 0 (leadingDigits_lt _)
  have h2 := leadingDigits_length_le (dropSign bs)
  have h3 := dropSign_length_le bs
  have h4 : 10 ^ (leadingDigits (dropSign bs)).length ≤ 10 ^ 18 :=
    Nat.pow_le_pow_right (by decide) (by omega)
  have h5 : ¬ (2 ^ 64 ≤ decimalValue 0 (leadingDigits (dropSign bs))) := by
    have h6 : (10 : Nat) ^ 18 < 2 ^ 64 := by norm_num
    omega
  simp only [valueBesideError, if_neg h5]

/-- The loop of `ParseUint`, said without the loop: a range error exactly when
the leading digits reach `2^64`, else the value when all bytes are digits, else
a syntax error. -/
theorem parseUintLoop_eq (bs : List Nat) (acc : Nat) (hacc : acc < 2 ^ 64) :
    parseUintLoop acc bs =
      if 2 ^ 64 ≤ decimalValue acc (leadingDigits bs) then (maxUint64, some .ErrRange)
      else if bs.all isDigitByte then (decimalValue acc (leadingDigits bs), none)
      else (0, some .ErrSyntax) := by
  induction bs generalizing acc with
  | nil =>
    have h : ¬ (2 ^ 64 ≤ decimalValue acc (leadingDigits [])) := by
      simp only [leadingDigits, List.takeWhile_nil, List.map_nil, decimalValue, List.foldl_nil]
      omega
    rw [if_neg h]
    rfl
  | cons c rest ih =>
    by_cases hdig : 48 ≤ c ∧ c ≤ 57
    · have hc : isDigitByte c = true := by simpa [isDigitByte] using hdig
      have hld : leadingDigits (c :: rest) = (c - 48) :: leadingDigits rest := by
        simp [leadingDigits, List.takeWhile_cons, hc]
      have hval : decimalValue acc (leadingDigits (c :: rest)) =
          decimalValue (acc * 10 + (c - 48)) (leadingDigits rest) := by
        rw [hld]
        rfl
      have hge := decimalValue_ge (leadingDigits rest) (acc * 10 + (c - 48))
      have hall : (c :: rest).all isDigitByte = rest.all isDigitByte := by
        simp [List.all_cons, hc]
      rw [hval, hall]
      simp only [parseUintLoop, if_pos hdig]
      by_cases h1 : acc ≥ maxUint64 / 10 + 1
      · rw [if_pos h1, if_pos (by unfold maxUint64 at h1; omega)]
      · rw [if_neg h1]
        have e1 : acc * 10 % 2 ^ 64 = acc * 10 := by
          apply Nat.mod_eq_of_lt
          unfold maxUint64 at h1
          omega
        rw [e1]
        by_cases h2 : acc * 10 + (c - 48) < 2 ^ 64
        · have e2 : (acc * 10 + (c - 48)) % 2 ^ 64 = acc * 10 + (c - 48) :=
            Nat.mod_eq_of_lt h2
          rw [e2, if_neg (by unfold maxUint64; omega)]
          exact ih _ h2
        · have e2 : (acc * 10 + (c - 48)) % 2 ^ 64 = acc * 10 + (c - 48) - 2 ^ 64 := by
            unfold maxUint64 at h1
            omega
          rw [e2, if_pos (by unfold maxUint64 at h1; omega), if_pos (by omega)]
    · have hc : isDigitByte c = false := by simpa [isDigitByte] using hdig
      have hld : leadingDigits (c :: rest) = [] := by
        simp [leadingDigits, List.takeWhile_cons, hc]
      have h : ¬ (2 ^ 64 ≤ decimalValue acc (leadingDigits (c :: rest))) := by
        rw [hld]
        simp only [decimalValue, List.foldl_nil]
        omega
      have hall : (c :: rest).all isDigitByte = false := by simp [List.all_cons, hc]
      simp only [parseUintLoop, if_neg hdig]
      rw [if_neg h, hall]
      rfl

theorem ParseInt_not_decimal (bs : List Nat) (hnd : isDecimalInteger bs = false) :
    (ParseInt bs).1 = valueBesideError bs := by
  cases bs with
  | nil =>
    have h : ¬ (2 ^ 64 ≤ decimalValue 0 (leadingDigits (dropSign []))) := by
      simp [dropSign, leadingDigits, decimalValue]
    simp only [valueBesideError, if_neg h]
    rfl
  | cons s0 tail =>
    have hs1 : (if s0 = 43 ∨ s0 = 45 then tail else s0 :: tail) = dropSign (s0 :: tail) := rfl
    simp only [ParseInt, hs1, valueBesideError, List.head?_cons, Option.some.injEq]
    by_cases hempty : dropSign (s0 :: tail) = []
    · have h : ¬ (2 ^ 64 ≤ decimalValue 0 (leadingDigits (dropSign (s0 :: tail)))) := by
        rw [hempty]
        simp [leadingDigits, decimalValue]
      simp [ParseUint, hempty, if_neg h]
      simp [leadingDigits, decimalValue]
    · rw [ParseUint, if_neg hempty, parseUintLoop_eq _ 0 (by norm_num)]
      by_cases hover : 2 ^ 64 ≤ decimalValue 0 (leadingDigits (dropSign (s0 :: tail)))
      · simp only [if_pos hover, intSize, maxUint64]
        by_cases hneg : s0 = 45
        · simp [hneg]
        · simp [hneg]
      · simp only [if_neg hover]
        by_cases hall : (dropSign (s0 :: tail)).all isDigitByte = true
        · exfalso
          by_cases hsign : s0 = 43 ∨ s0 = 45
          · simp only [dropSign, if_pos hsign] at hall hempty
            simp only [isDecimalInteger, if_pos hsign, hall] at hnd
            cases tail with
            | nil => exact hempty rfl
            | cons t ts => simp at hnd
          · simp only [dropSign, if_neg hsign] at hall
            simp only [isDecimalInteger, if_neg hsign] at hnd
            rw [hall] at hnd
            exact Bool.noConfusion hnd
        · simp [hall]

theorem valueBesideError_refused (bs : List Nat) :
    valueBesideError bs < 100 ∨ valueBesideError bs > 999 := by
  unfold valueBesideError
  split_ifs <;> norm_num

/-- On a name that is no decimal integer, `strconv.Atoi` returns
`valueBesideError` beside its error. -/
theorem atoiBytes_not_decimal (bs : List Nat) (hb : ∀ b ∈ bs, b < 256)
    (hnd : isDecimalInteger bs = false) :
    (atoiBytes bs).1 = valueBesideError bs := by
  unfold atoiBytes
  by_cases hlen : 0 < bs.length ∧ bs.length < 19
  · rw [if_pos hlen, valueBesideError_short bs hlen.2]
    cases bs with
    | nil => rfl
    | cons s0 tail => exact atoiFast_not_decimal s0 tail hb hnd
  · rw [if_neg hlen]
    exact ParseInt_not_decimal bs hnd

theorem goBytes_lt (s : String) : ∀ b ∈ goBytes s, b < 256 := by
  intro b hb
  simp only [goBytes, List.mem_flatMap, List.mem_map] at hb
  obtain ⟨c, _, u, _, rfl⟩ := hb
  exact u.val.isLt

/-! ### The derivative matcher against the specification of regular expressions -/

theorem Regex.matches_cat_iff (r s : Regex) (cs : List Char) :
    Regex.Matches (.cat r s) cs ↔ ∃ u v, cs = u ++ v ∧ Regex.Matches r u ∧ Regex.Matches s v := by
  constructor
  · intro h
    cases h with
    | cat h1 h2 => exact ⟨_, _, rfl, h1, h2⟩
  · rintro ⟨u, v, rfl, h1, h2⟩
    exact .cat h1 h2

theorem Regex.matches_alt_iff (r s : Regex) (cs : List Char) :
    Regex.Matches (.alt r s) cs ↔ Regex.Matches r cs ∨ Regex.Matches s cs := by
  constructor
  · intro h
    cases h with
    | altLeft h => exact Or.inl h
    | altRight h => exact Or.inr h
  · rintro (h | h)
    · exact .altLeft h
    · exact .altRight h

theorem Regex.nullable_iff (r : Regex) : r.nullable = true ↔ Regex.Matches r [] := by
  induction r with
  | noMatch => simp only [Regex.nullable]; constructor <;> intro h <;> cases h
  | eps => simp only [Regex.nullable]; exact ⟨fun _ => .eps, fun _ => trivial⟩
  | lit c => simp only [Regex.nullable]; constructor <;> intro h <;> cases h
  | dot => simp only [Regex.nullable]; constructor <;> intro h <;> cases h
  | alt r s ihr ihs =>
    simp only [Regex.nullable, Bool.or_eq_true, ihr, ihs, Regex.matches_alt_iff]
  | cat r s ihr ihs =>
    simp only [Regex.nullable, Bool.and_eq_true, ihr, ihs, Regex.matches_cat_iff]
    constructor
    · rintro ⟨h1, h2⟩
      exact ⟨[], [], rfl, h1, h2⟩
    · rintro ⟨u, v, huv, h1, h2⟩
      obtain ⟨rfl, rfl⟩ := List.append_eq_nil.mp huv.symm
      exact ⟨h1, h2⟩
  | star r _ => simp only [Regex.nullable]; exact ⟨fun _ => .starNil, fun _ => trivial⟩

theorem Regex.matches_star_cons (r : Regex) (c : Char) (cs : List Char) :
    Regex.Matches (.star r) (c :: cs) ↔
      ∃ u v, cs = u ++ v ∧ Regex.Matches r (c :: u) ∧ Regex.Matches (.star r) v := by
  constructor
  · intro h
    generalize hre : Regex.star r = re at h
    generalize hcs : c :: cs = text at h
    induction h with
    | eps => cases hre
    | lit _ => cases hre
    | dot _ _ => cases hre
    | altLeft _ _ => cases hre
    | altRight _ _ => cases hre
    | cat _ _ _ _ => cases hre
    | starNil => cases hcs
    | @starCons r1 u v h1 h2 _ ih2 =>
      cases hre
      cases u with
      | nil => exact ih2 rfl hcs
      | cons a u1 =>
        simp only [List.cons_append, List.cons.injEq] at hcs
        obtain ⟨rfl, rfl⟩ := hcs
        exact ⟨u1, v, rfl, h1, h2⟩
  · rintro ⟨u, v, rfl, h1, h2⟩
    exact .starCons h1 h2

theorem Regex.deriv_iff (r : Regex) (c : Char) (cs : List Char) :
    Regex.Matches (r.deriv c) cs ↔ Regex.Matches r (c :: cs) := by
  induction r generalizing cs with
  | noMatch => simp only [Regex.deriv]; constructor <;> intro h <;> cases h
  | eps => simp only [Regex.deriv]; constructor <;> intro h <;> cases h
  | lit a =>
    simp only [Regex.deriv]
    by_cases hac : a = c
    · subst hac
      rw [if_pos rfl]
      constructor
      · intro h
        cases h
        exact .lit a
      · intro h
        cases h
        exact .eps
    · rw [if_neg hac]
      constructor
      · intro h
        cases h
      · intro h
        cases h
        exact absurd rfl hac
  | dot =>
    simp only [Regex.deriv]
    by_cases hc : c = '\n'
    · rw [if_pos hc]
      constructor
      · intro h
        cases h
      · intro h
        cases h with
        | dot _ hne => exact absurd hc hne
    · rw [if_neg hc]
      constructor
      · intro h
        cases h
        exact .dot c hc
      · intro h
        cases h
        exact .eps
  | alt r s ihr ihs =>
    simp only [Regex.deriv, Regex.matches_alt_iff, ihr, ihs]
  | cat r s ihr ihs =>
    have key : Regex.Matches (.cat r s) (c :: cs) ↔
        (Regex.Matches (.cat (r.deriv c) s) cs ∨
          (r.nullable = true ∧ Regex.Matches (s.deriv c) cs)) := by
      rw [Regex.matches_cat_iff, Regex.matches_cat_iff, Regex.nullable_iff, ihs]
      constructor
      · rintro ⟨u, v, huv, h1, h2⟩
        cases u with
        | nil =>
          simp only [List.nil_append] at huv
          subst huv
          exact Or.inr ⟨h1, h2⟩
        | cons a u1 =>
          simp only [List.cons_append, List.cons.injEq] at huv
          obtain ⟨rfl, rfl⟩ := huv
          exact Or.inl ⟨u1, v, rfl, (ihr u1).mpr h1, h2⟩
      · rintro (⟨u, v, rfl, h1, h2⟩ | ⟨h1, h2⟩)
        · exact ⟨c :: u, v, rfl, (ihr u).mp h1, h2⟩
        · exact ⟨[], c :: cs, rfl, h1, h2⟩
    rw [key]
    simp only [Regex.deriv]
    by_cases hn : r.nullable = true
    · rw [if_pos hn, Regex.matches_alt_iff]
      simp only [hn, true_and]
    · rw [if_neg hn]
      simp [hn]
  | star r ih =>
    simp only [Regex.deriv]
    rw [Regex.matches_star_cons, Regex.matches_cat_iff]
    constructor
    · rintro ⟨u, v, rfl, h1, h2⟩
      exact ⟨u, v, rfl, (ih u).mp h1, h2⟩
    · rintro ⟨u, v, rfl, h1, h2⟩
      exact ⟨u, v, rfl, (ih u).mpr h1, h2⟩

theorem Regex.accepts_iff (r : Regex) (cs : List Char) :
    r.accepts cs = true ↔ Regex.Matches r cs := by
  induction cs generalizing r with
  | nil => exact Regex.nullable_iff r
  | cons c cs ih =>
    rw [← Regex.deriv_iff]
    exact ih (r.deriv c)

theorem Regex.matches_lit_iff (a : Char) (cs : List Char) :
    Regex.Matches (.lit a) cs ↔ cs = [a] := by
  constructor
  · intro h
    cases h
    rfl
  · rintro rfl
    exact .lit a

theorem Regex.matches_star_dot_iff (cs : List Char) :
    Regex.Matches (.star .dot) cs ↔ '\n' ∉ cs := by
  induction cs with
  | nil => exact ⟨fun _ => by simp, fun _ => .starNil⟩
  | cons c cs ih =>
    rw [Regex.matches_star_cons]
    constructor
    · rintro ⟨u, v, rfl, h1, h2⟩
      generalize hcu : c :: u = cu at h1
      cases h1 with
      | dot a ha =>
        simp only [List.cons.injEq] at hcu
        obtain ⟨rfl, rfl⟩ := hcu
        have := ih.mp h2
        simp only [List.nil_append, List.mem_cons, not_or]
        exact ⟨fun e => ha e.symm, this⟩
    · intro h
      simp only [List.mem_cons, not_or] at h
      exact ⟨[], cs, rfl, .dot c (fun e => h.1 e.symm), ih.mpr h.2⟩

/-- The pattern matches exactly the texts `[`, then any text without a line
feed, then `][]`. -/
theorem isReferenceToModel_matches (cs : List Char) :
    Regex.Matches isReferenceToModel cs ↔
      ∃ mid : List Char, '\n' ∉ mid ∧ cs = '[' :: (mid ++ [']', '[', ']']) := by
  simp only [isReferenceToModel, Regex.matches_cat_iff, Regex.matches_lit_iff,
    Regex.matches_star_dot_iff]
  constructor
  · rintro ⟨u1, v1, rfl, rfl, u2, v2, rfl, h2, u3, v3, rfl, rfl, u4, v4, rfl, rfl, rfl⟩
    exact ⟨u2, h2, rfl⟩
  · rintro ⟨mid, hmid, rfl⟩
    exact ⟨_, _, rfl, rfl, mid, _, rfl, hmid, _, _, rfl, rfl, _, _, rfl, rfl, rfl⟩

/-- The test of api.go:236 holds exactly when the body contains, anywhere, a
`[`, then any text without a line feed, then `][]`. -/
theorem MatchString_isReferenceToModel (body : String) :
    isReferenceToModel.MatchString body = true ↔
      ∃ pre mid post : List Char, '\n' ∉ mid ∧
        body.data = pre ++ '[' :: (mid ++ [']', '[', ']']) ++ post := by
  simp only [Regex.MatchString, List.any_eq_true, List.mem_tails, List.mem_inits,
    Regex.accepts_iff, isReferenceToModel_matches]
  constructor
  · rintro ⟨t, ⟨pre, hpre⟩, u, ⟨post, hpost⟩, mid, hmid, rfl⟩
    exact ⟨pre, mid, post, hmid, by rw [← hpre, ← hpost, List.append_assoc]⟩
  · rintro ⟨pre, mid, post, hmid, hbody⟩
    exact ⟨'[' :: (mid ++ [']', '[', ']']) ++ post, ⟨pre, by rw [hbody, List.append_assoc]⟩,
      '[' :: (mid ++ [']', '[', ']']), ⟨post, rfl⟩, mid, hmid, rfl⟩

/-- The overflow corner of `strconv.Atoi` is real: twenty nines followed by a
letter are no numeral, yet the value returned beside the error is `2^63 - 1`,
and `-2^63` with a leading minus sign. -/
theorem Atoi_overflowing_digits :
    Atoi "99999999999999999999x" = (9223372036854775807, some .ErrRange) ∧
    Atoi "-99999999999999999999x" = (-9223372036854775808, some .ErrRange) ∧
    isDecimalInteger (goBytes "99999999999999999999x") = false := by
  decide

/-! ### What the handler writes -/

theorem foldl_Set (headers : List Header) (w : ResponseWriter) (hw : w.panicked = false) :
    headers.foldl (fun w header => w.Set header.Name header.Value) w =
      { w with headerSets := w.headerSets ++ headers.map fun h => (h.Name, h.Value) } := by
  induction headers generalizing w with
  | nil => simp
  | cons h hs ih =>
    have hstep : w.Set h.Name h.Value =
        { w with headerSets := w.headerSets ++ [(h.Name, h.Value)] } := by
      simp [ResponseWriter.Set, hw]
    rw [List.foldl_cons, hstep,
      ih { w with headerSets := w.headerSets ++ [(h.Name, h.Value)] } hw]
    simp

/-- Everything the handler does to its writer for the selected `reply`, in
terms of the fields of `reply` and of the resource it reads. -/
theorem writeReply_eq (resource : Resource) (reply : Response) :
    writeReply resource reply {} =
      { headerSets := ("Access-Control-Allow-Origin", "*") ::
          reply.Headers.map fun h => (h.Name, h.Value),
        status := some (Atoi reply.Name).1,
        body :=
          if (Atoi reply.Name).1 < 100 ∨ (Atoi reply.Name).1 > 999 then ""
          else if isReferenceToModel.MatchString reply.Body then resource.Model.Body
          else reply.Body,
        panicked := decide ((Atoi reply.Name).1 < 100 ∨ (Atoi reply.Name).1 > 999) } := by
  have h0 : ResponseWriter.Set {} "Access-Control-Allow-Origin" "*" =
      { headerSets := [("Access-Control-Allow-Origin", "*")] } := rfl
  unfold writeReply
  simp only [h0]
  rw [foldl_Set _ _ rfl]
  by_cases hcode : (Atoi reply.Name).1 < 100 ∨ (Atoi reply.Name).1 > 999
  · simp [ResponseWriter.WriteHeader, ResponseWriter.Write, hcode]
  · by_cases hm : isReferenceToModel.MatchString reply.Body = true
    · simp [ResponseWriter.WriteHeader, ResponseWriter.Write, hcode, hm]
    · simp [ResponseWriter.WriteHeader, ResponseWriter.Write, hcode, hm]

theorem writeReply_status (resource : Resource) (reply : Response) :
    (writeReply resource reply {}).status = some (Atoi reply.Name).1 := by
  rw [writeReply_eq]

theorem writeReply_body (resource : Resource) (reply : Response)
    (hcode : 100 ≤ (Atoi reply.Name).1 ∧ (Atoi reply.Name).1 ≤ 999) :
    (writeReply resource reply {}).body =
      if isReferenceToModel.MatchString reply.Body then resource.Model.Body else reply.Body := by
  rw [writeReply_eq]
  have : ¬ ((Atoi reply.Name).1 < 100 ∨ (Atoi reply.Name).1 > 999) := by omega
  simp only [if_neg this]

theorem handler_result (resource : Resource) (ex : Example) (stickToHappyPath : Bool)
    (r : HttpRequest) (t : String) :
    (handler resource ex stickToHappyPath r).result t =
      ((resolveReply ex stickToHappyPath).result t).map fun reply =>
        writeReply resource reply {} := by
  unfold handler
  cases resolveReply ex stickToHappyPath <;> rfl

/-! ### Which variables the registered closures read -/

theorem mem_forRange {α β : Type} (loopVar : LoopVar) (xs : List α)
    (body : Nat → α → α → List β) (b : β) (h : b ∈ forRange loopVar xs body) :
    ∃ i cur captured, xs[i]? = some cur ∧
      (loopVar = .perLoop → xs.getLast? = some captured) ∧
      (loopVar = .perIteration → captured = cur) ∧ b ∈ body i cur captured := by
  simp only [forRange, List.mem_flatMap] at h
  obtain ⟨⟨i, cur⟩, hmem, hb⟩ := h
  have hcur : xs[i]? = some cur := List.mem_enum_iff_getElem?.mp hmem
  have hne : xs ≠ [] := by
    rintro rfl
    simp at hcur
  obtain ⟨last, hlast⟩ : ∃ last, xs.getLast? = some last := by
    cases hl : xs.getLast? with
    | none => exact absurd (List.getLast?_eq_none_iff.mp hl) hne
    | some l => exact ⟨l, rfl⟩
  cases loopVar with
  | perLoop =>
    refine ⟨i, cur, last, hcur, fun _ => hlast, (fun h => nomatch h), ?_⟩
    simpa [hlast] using hb
  | perIteration =>
    exact ⟨i, cur, cur, hcur, (fun h => nomatch h), fun _ => rfl, hb⟩

/-- Which resource and which example a registered handler closure reads: its
own under `perIteration`, the last of the group and of the action under
`perLoop`. -/
theorem handler_reads (loopVar : LoopVar) (api : API) (cors stickToHappyPath : Bool)
    (route : Route) (resource : Resource) (ex : Example) (flag : Bool)
    (hroute : route ∈ GenerateRoutes loopVar api cors stickToHappyPath)
    (hf : route.f = .handler resource ex flag) :
    flag = stickToHappyPath ∧
    ∃ group owner action own,
      api.ResourceGroups[route.group]? = some group ∧
      group.Resources[route.resource]? = some owner ∧
      owner.Actions[route.action]? = some action ∧
      action.Examples[route.ex]? = some own ∧
      route.path = owner.UriTemplate ∧ route.method = action.Method ∧
      (loopVar = .perIteration → resource = owner ∧ ex = own) ∧
      (loopVar = .perLoop →
        group.Resources.getLast? = some resource ∧ action.Examples.getLast? = some ex) := by
  unfold GenerateRoutes at hroute
  obtain ⟨gi, group, _, hg, _, _, hroute⟩ := mem_forRange _ _ _ _ hroute
  obtain ⟨ri, owner, resourceVar, hr, hrl, hri, hroute⟩ := mem_forRange _ _ _ _ hroute
  obtain ⟨ai, action, _, ha, _, _, hroute⟩ := mem_forRange _ _ _ _ hroute
  obtain ⟨ei, own, exampleVar, he, hel, hei, hroute⟩ := mem_forRange _ _ _ _ hroute
  simp only [List.mem_append, List.mem_singleton] at hroute
  rcases hroute with h | h
  · subst h
    simp only [HandlerFunc.handler.injEq] at hf
    obtain ⟨h1, h2, h3⟩ := hf
    subst h1 h2 h3
    exact ⟨rfl, group, owner, action, own, hg, hr, ha, he, rfl, rfl,
      fun h => ⟨hri h, hei h⟩, fun h => ⟨hrl h, hel h⟩⟩
  · by_cases hc : cors = true
    · simp only [hc, if_true, List.mem_singleton] at h
      subst h
      simp at hf
    · simp [hc] at h

/-! ## The claims -/

/-- C1: on the interactive path (more than one response variant,
`stickToHappyPath` false) the handler serves, for the Answer text `t`, the
first declared variant (the default) when `t` is empty or is the Name of no
variant, and otherwise the first declared variant whose Name equals `t`. -/
theorem answer_selection (resource : Resource) (ex : Example) (r : HttpRequest)
    (t : String) (first : Response) (rest : List Response)
    (hfirst : ex.Responses = first :: rest) (hmany : 1 < ex.Responses.length) :
    (handler resource ex false r).result t =
      some (writeReply resource
        (if t = "" then first
         else (ex.Responses.find? fun v => decide (v.Name = t)).getD first) {}) := by
  have hlen : 1 < (first :: rest).length := hfirst ▸ hmany
  simp only [handler, resolveReply, hfirst]
  rw [if_pos ⟨hlen, by simp⟩]
  simp only [Interaction.map, Interaction.result, selectReply_eq_find]
  by_cases ht : t = "" <;> simp [ht]

/-- Witness of C1 on the two-variant example: Answer `404` serves the second
variant, an unrecognized Answer serves the first. -/
theorem answer_selection_witness :
    (handler {} okOrMissing false {}).result "404" =
        some { headerSets := [("Access-Control-Allow-Origin", "*")], status := some 404,
               body := "\x7b\"err\":true\x7d" } ∧
    (handler {} okOrMissing false {}).result "teapot" =
        some { headerSets := [("Access-Control-Allow-Origin", "*")], status := some 200,
               body := "\x7b\"ok\":true\x7d" } :=
  ⟨(answer_selection {} okOrMissing {} "404" _ _ rfl (by decide)).trans (by decide),
   (answer_selection {} okOrMissing {} "teapot" _ _ rfl (by decide)).trans (by decide)⟩

/-- C2: when the example has exactly one variant, or `stickToHappyPath` is true,
the handler finishes without sending a Question or receiving an Answer, and
what it serves is the first declared variant: it sets the headers of that
variant, gives the number parsed from its Name to `WriteHeader` and writes its
body (the model body of the resource when the body is a reference to the
model).  Nothing of any other variant is used.  For a Name whose number
net/http refuses, the handler ends in `WriteHeader` with those headers set and
no body. -/
theorem non_interactive_first_variant (resource : Resource) (ex : Example)
    (stickToHappyPath : Bool) (r : HttpRequest) (first : Response) (rest : List Response)
    (hfirst : ex.Responses = first :: rest) (hcase : rest = [] ∨ stickToHappyPath = true) :
    handler resource ex stickToHappyPath r = .done
      { headerSets := ("Access-Control-Allow-Origin", "*") ::
          first.Headers.map fun h => (h.Name, h.Value),
        status := some (Atoi first.Name).1,
        body :=
          if (Atoi first.Name).1 < 100 ∨ (Atoi first.Name).1 > 999 then ""
          else if isReferenceToModel.MatchString first.Body then resource.Model.Body
          else first.Body,
        panicked := decide ((Atoi first.Name).1 < 100 ∨ (Atoi first.Name).1 > 999) } := by
  rw [← writeReply_eq]
  simp only [handler, resolveReply, hfirst]
  rcases hcase with h | h
  · subst h
    simp [Interaction.map]
  · subst h
    simp [Interaction.map]

/-- Witness of C2: the two-variant example under `stickToHappyPath` is served
as `200` with the body of the first variant, and the single-variant example is
served as `200` with its header and body whatever `stickToHappyPath` is. -/
theorem non_interactive_first_variant_witness :
    handler {} okOrMissing true {} = .done
      { headerSets := [("Access-Control-Allow-Origin", "*")], status := some 200,
        body := "\x7b\"ok\":true\x7d" } ∧
    handler {} onlyOK false {} = .done
      { headerSets := [("Access-Control-Allow-Origin", "*"),
                       ("Content-Type", "application/json")],
        status := some 200, body := "\x7b\"ok\":true\x7d" } :=
  ⟨(non_interactive_first_variant {} okOrMissing true {} _ _ rfl (Or.inr rfl)).trans
      (congrArg Interaction.done (by decide)),
   (non_interactive_first_variant {} onlyOK false {} _ _ rfl (Or.inl rfl)).trans
      (congrArg Interaction.done (by decide))⟩

/-- C3, as stated, fails beyond the range of `int`: the variant named by the
decimal representation of `2^63` is served with status `2^63 - 1`. -/
theorem status_code_counterexample :
    (resolveReply beyondInt true).result "" =
        some { Name := toString (9223372036854775808 : Int), Body := "big" } ∧
    ((handler {} beyondInt true {}).result "").map (fun w => w.status) =
        some (some 9223372036854775807) := by
  decide

/-- C3, amended: for every variant the handler selects whose Name is the
decimal representation of an integer `n` in the range of `int`
(`-2^63 ≤ n < 2^63`), the status code given to `WriteHeader` is `n`. -/
theorem status_code (resource : Resource) (ex : Example) (stickToHappyPath : Bool)
    (r : HttpRequest) (t : String) (reply : Response) (n : Int)
    (hsel : (resolveReply ex stickToHappyPath).result t = some reply)
    (hname : reply.Name = toString n) (hlo : -(2 ^ 63) ≤ n) (hhi : n < 2 ^ 63) :
    ((handler resource ex stickToHappyPath r).result t).map (fun w => w.status) =
      some (some n) := by
  rw [handler_result, hsel]
  simp only [Option.map_some', writeReply_status, hname, Atoi_toString n hlo hhi]

/-- Witness of the amended C3: the variant named `404` gives status 404. -/
theorem status_code_witness :
    ((handler {} okOrMissing false {}).result "404").map (fun w => w.status) =
      some (some 404) :=
  status_code {} okOrMissing false {} "404"
    { Name := "404", Body := "\x7b\"err\":true\x7d" } 404 (by decide) (by decide)
    (by decide) (by decide)

/-- C4, as stated, fails.  Built with one variable per range statement (Go up
to 1.21), the handler registered for `/widgets` in a group of two resources
writes `GADGET`, the model body of the last resource, where the owning resource
has `WIDGET`.  And with either meaning of the loop variable, a selected variant
named `OK` whose body is a reference to the model gets no body at all: the
handler ends in `WriteHeader(0)`. -/
theorem model_body_counterexample :
    (GenerateRoutes .perLoop twoResourcesAPI false false).map
        (fun route => (route.path, ((route.f.ServeHTTP {}).result "").map fun w => w.body)) =
      [("/widgets", some "GADGET"), ("/gadgets", some "GADGET")] ∧
    widgets.Model.Body = "WIDGET" ∧
    isReferenceToModel.MatchString "[Widget][]" = true ∧
    ∀ loopVar : LoopVar,
      (GenerateRoutes loopVar namedOKAPI false false).map
          (fun route => (route.path,
            ((route.f.ServeHTTP {}).result "").map fun w => (w.status, w.body, w.panicked))) =
        [("/widgets", some (some 0, "", true))] :=
  ⟨by decide, by decide, by decide, fun loopVar => by cases loopVar <;> decide⟩

/-- C4, amended: for every tree and every handler registered for an example of
an action of a resource `owner`, and every selected variant whose Name parses
to a code net/http accepts (100..999), the body written is the `Model.Body` of
the resource the closure reads when the variant's Body matches the pattern,
and the variant's Body verbatim otherwise.  The resource and example the
closure reads are `owner` and its own example when each iteration has its own
loop variable (Go 1.22 and later), and the last resource of the group and the
last example of the action when the range statement has one variable (Go up
to 1.21). -/
theorem model_body (loopVar : LoopVar) (api : API) (cors stickToHappyPath : Bool)
    (route : Route) (resource : Resource) (ex : Example) (flag : Bool)
    (r : HttpRequest) (t : String) (reply : Response)
    (hroute : route ∈ GenerateRoutes loopVar api cors stickToHappyPath)
    (hf : route.f = .handler resource ex flag)
    (hsel : (resolveReply ex flag).result t = some reply)
    (hcode : 100 ≤ (Atoi reply.Name).1 ∧ (Atoi reply.Name).1 ≤ 999) :
    (∃ group owner action own,
      api.ResourceGroups[route.group]? = some group ∧
      group.Resources[route.resource]? = some owner ∧
      owner.Actions[route.action]? = some action ∧
      action.Examples[route.ex]? = some own ∧
      route.path = owner.UriTemplate ∧ route.method = action.Method ∧
      (loopVar = .perIteration → resource = owner ∧ ex = own) ∧
      (loopVar = .perLoop →
        group.Resources.getLast? = some resource ∧ action.Examples.getLast? = some ex)) ∧
    ((route.f.ServeHTTP r).result t).map (fun w => w.body) =
      some (if isReferenceToModel.MatchString reply.Body then resource.Model.Body
            else reply.Body) := by
  refine ⟨(handler_reads loopVar api cors stickToHappyPath route resource ex flag hroute hf).2, ?_⟩
  rw [hf]
  show ((handler resource ex flag r).result t).map (fun w => w.body) = _
  rw [handler_result, hsel]
  simp only [Option.map_some', writeReply_body resource reply hcode]

/-- Witness of the amended C4 on the tree of two resources: with a loop
variable per iteration the handler of `/widgets` writes `WIDGET`, with one
variable per range statement it writes `GADGET`. -/
theorem model_body_witness :
    ((HandlerFunc.ServeHTTP (.handler widgets { Responses := [{ Name := "200", Body := "[Widget][]" }] }
        false) {}).result "").map (fun w => w.body) = some "WIDGET" ∧
    ((HandlerFunc.ServeHTTP (.handler gadgets { Responses := [{ Name := "200", Body := "[Widget][]" }] }
        false) {}).result "").map (fun w => w.body) = some "GADGET" :=
  ⟨(model_body .perIteration twoResourcesAPI false false
      { path := "/widgets", method := "GET",
        f := .handler widgets { Responses := [{ Name := "200", Body := "[Widget][]" }] } false,
        group := 0, resource := 0, action := 0, ex := 0 }
      widgets _ false {} "" { Name := "200", Body := "[Widget][]" }
      (by decide) rfl (by decide) (by decide)).2.trans (by decide),
   (model_body .perLoop twoResourcesAPI false false
      { path := "/widgets", method := "GET",
        f := .handler gadgets { Responses := [{ Name := "200", Body := "[Widget][]" }] } false,
        group := 0, resource := 0, action := 0, ex := 0 }
      gadgets _ false {} "" { Name := "200", Body := "[Widget][]" }
      (by decide) rfl (by decide) (by decide)).2.trans (by decide)⟩

/-- C5, as stated, fails: for the variant named `OK`, and for a variant with
the empty Name, the handler gives 0 to `WriteHeader`, no fallback; net/http
refuses the code with a panic and neither status nor body is written. -/
theorem non_numeric_name_counterexample :
    (handler {} namedOK false {}).result "" =
      some { headerSets := [("Access-Control-Allow-Origin", "*")], status := some 0,
             body := "", panicked := true } ∧
    writeReply {} { Name := "", Body := "fine" } {} =
      { headerSets := [("Access-Control-Allow-Origin", "*")], status := some 0,
        body := "", panicked := true } := by
  decide

/-- C5, amended: for every variant the handler selects whose Name is not an
optionally signed, non-empty run of decimal digits, there is no fallback
status.  The handler sets the headers of the variant and gives to
`WriteHeader` the value `strconv.Atoi` returns beside its discarded error: 0,
unless the digits after the optional sign reach `2^64` before the first byte
that is no digit, where it is `2^63 - 1`, or `-2^63` after a minus sign
(`valueBesideError`).  net/http refuses each of these codes with a panic, so the
handler ends there and no body is written. -/
theorem non_numeric_name (resource : Resource) (ex : Example) (stickToHappyPath : Bool)
    (r : HttpRequest) (t : String) (reply : Response)
    (hsel : (resolveReply ex stickToHappyPath).result t = some reply)
    (hname : isDecimalInteger (goBytes reply.Name) = false) :
    (handler resource ex stickToHappyPath r).result t =
      some { headerSets := ("Access-Control-Allow-Origin", "*") ::
               reply.Headers.map fun h => (h.Name, h.Value),
             status := some (valueBesideError (goBytes reply.Name)),
             body := "",
             panicked := true } := by
  have hval : (Atoi reply.Name).1 = valueBesideError (goBytes reply.Name) :=
    atoiBytes_not_decimal (goBytes reply.Name) (goBytes_lt reply.Name) hname
  have href := valueBesideError_refused (goBytes reply.Name)
  rw [handler_result, hsel, Option.map_some', writeReply_eq, hval]
  simp only [if_pos href, decide_eq_true href]

/-- Witness of the amended C5: the variant named `OK` gives 0 to `WriteHeader`,
and a variant named by twenty nines and a letter gives `2^63 - 1`. -/
theorem non_numeric_name_witness :
    (handler {} namedOK false {}).result "" =
      some { headerSets := [("Access-Control-Allow-Origin", "*")], status := some 0,
             body := "", panicked := true } ∧
    (handler {} { Responses := [{ Name := "99999999999999999999x" }] } false {}).result "" =
      some { headerSets := [("Access-Control-Allow-Origin", "*")],
             status := some 9223372036854775807, body := "", panicked := true } :=
  ⟨(non_numeric_name {} namedOK false {} "" { Name := "OK", Body := "fine" }
      (by decide) (by decide)).trans (by decide),
   (non_numeric_name {} { Responses := [{ Name := "99999999999999999999x" }] } false {} ""
      { Name := "99999999999999999999x" } (by decide) (by decide)).trans (by decide)⟩

/-- C6, as stated, fails: in `sharedName` the first variant is named `200` and
has body `first`, but the Question maps `200` to `second`. -/
theorem question_content_counterexample :
    ∃ v ∈ sharedName.Responses, ∃ q : Question,
      (handler {} sharedName false {}).asked = some q ∧
      q.Answers.get v.Name ≠ some v.Body :=
  ⟨{ Name := "200", Body := "first" }, by decide,
   { Answers := [("200", "second")] }, by decide, by decide⟩

/-- C6, amended: on the interactive path the handler submits a Question whose
map sends each key to the Body of the last declared variant of that Name; the
Name of every variant is a key, and every key is the Name of a variant. -/
theorem question_content (resource : Resource) (ex : Example) (r : HttpRequest)
    (hmany : 1 < ex.Responses.length) :
    ∃ q : Question, (handler resource ex false r).asked = some q ∧
      (∀ key : String, q.Answers.get key =
        (ex.Responses.reverse.find? fun v => decide (v.Name = key)).map fun v => v.Body) ∧
      (∀ v ∈ ex.Responses, (q.Answers.get v.Name).isSome = true) ∧
      (∀ key : String, (q.Answers.get key).isSome = true → ∃ v ∈ ex.Responses, v.Name = key) := by
  have hget : ∀ key : String, GoMap.get key (buildAnswers ex.Responses) =
      (ex.Responses.reverse.find? fun v => decide (v.Name = key)).map fun v => v.Body := by
    intro key
    rw [buildAnswers, get_foldl_set]
    cases ex.Responses.reverse.find? (fun v => decide (v.Name = key)) <;> simp [GoMap.get]
  refine ⟨{ Answers := buildAnswers ex.Responses }, ?_, hget, ?_, ?_⟩
  · cases hres : ex.Responses with
    | nil => simp [hres] at hmany
    | cons first rest =>
      have hlen : 1 < (first :: rest).length := hres ▸ hmany
      simp only [handler, resolveReply, hres]
      rw [if_pos ⟨hlen, by simp⟩]
      simp [Interaction.map, Interaction.asked, hres]
  · intro v hv
    show (GoMap.get v.Name (buildAnswers ex.Responses)).isSome = true
    rw [hget]
    cases hf : ex.Responses.reverse.find? (fun w => decide (w.Name = v.Name)) with
    | some w => rfl
    | none =>
      have := List.find?_eq_none.mp hf v (List.mem_reverse.mpr hv)
      simp at this
  · intro key hkey
    have hkey2 : (GoMap.get key (buildAnswers ex.Responses)).isSome = true := hkey
    rw [hget] at hkey2
    cases hf : ex.Responses.reverse.find? (fun w => decide (w.Name = key)) with
    | none => simp [hf] at hkey2
    | some w =>
      have h1 := List.find?_some hf
      have h2 := List.mem_of_find?_eq_some hf
      exact ⟨w, List.mem_reverse.mp h2, by simpa using h1⟩

/-- Witness of the amended C6 on the example with a shared Name: the Question
is the map with the single entry `200` to `second`. -/
theorem question_content_witness :
    (handler {} sharedName false {}).asked = some { Answers := [("200", "second")] } ∧
    ∃ q : Question, (handler {} sharedName false {}).asked = some q ∧
      (∀ key : String, q.Answers.get key =
        (sharedName.Responses.reverse.find? fun v => decide (v.Name = key)).map
          fun v => v.Body) ∧
      (∀ v ∈ sharedName.Responses, (q.Answers.get v.Name).isSome = true) ∧
      (∀ key : String, (q.Answers.get key).isSome = true →
        ∃ v ∈ sharedName.Responses, v.Name = key) :=
  ⟨by decide, question_content {} sharedName {} (by decide)⟩

/-- C7, as stated, fails: the object marshalled for a Question has no member
named `answers`. -/
theorem wire_format_counterexample :
    (marshalQuestion { Answers := buildAnswers okOrMissing.Responses }).member "answers" = none ∧
    (marshalQuestion { Answers := buildAnswers okOrMissing.Responses }).names = ["Answers"] :=
  ⟨rfl, rfl⟩

/-- C7, amended: the JSON encoding of a Question is an object with exactly one
member, named `Answers`, whose value is an object that has, under each key of
the Question's map, the string the map holds there, and no other member. -/
theorem wire_format (question : Question) :
    (marshalQuestion question).names = ["Answers"] ∧
    ∃ value : Json, (marshalQuestion question).member "Answers" = some value ∧
      ∀ key : String, value.member key = (question.Answers.get key).map Json.str := by
  refine ⟨rfl, marshalMap question.Answers, ?_, ?_⟩
  · simp [marshalQuestion, Json.member, List.lookup]
  · intro key
    simp only [marshalMap, Json.member]
    exact lookup_marshalMap key question.Answers

/-- C8: the preflight closure answers every request with status 201, no body,
`Access-Control-Allow-Origin: *` and `Access-Control-Allow-Headers` set to the
request's `Access-Control-Request-Headers` value.  The closure captures no
variable of `GenerateRoutes` (neither the example nor `stickToHappyPath`) and
finishes without sending a Question. -/
theorem cors_preflight (r : HttpRequest) :
    HandlerFunc.ServeHTTP .preflight r = .done
      { headerSets := [("Access-Control-Allow-Origin", "*"),
                       ("Access-Control-Allow-Headers",
                        r.HeaderGet "Access-Control-Request-Headers")],
        status := some 201,
        body := "" } :=
  rfl

/-- Witness of C8: `Access-Control-Request-Headers: X-Custom` gives 201 with
`Access-Control-Allow-Headers: X-Custom`, on a preflight route registered for
the two-variant tree. -/
theorem cors_preflight_witness :
    (∀ loopVar : LoopVar,
      { path := "/widgets", method := "OPTIONS", f := .preflight,
        group := 0, resource := 0, action := 0, ex := 0 } ∈
          GenerateRoutes loopVar okOrMissingAPI true false) ∧
    HandlerFunc.ServeHTTP .preflight
        { Header := [("Access-Control-Request-Headers", ["X-Custom"])] } = .done
      { headerSets := [("Access-Control-Allow-Origin", "*"),
                       ("Access-Control-Allow-Headers", "X-Custom")],
        status := some 201,
        body := "" } :=
  ⟨fun loopVar => by cases loopVar <;> decide,
   cors_preflight { Header := [("Access-Control-Request-Headers", ["X-Custom"])] }⟩

/-- C9, the code at the failing input: for the tree whose example declares no
response variant, the handler that `GenerateRoutes` registers (the same under
either meaning of the loop variable) panics on every request
(`example.Responses[0]` is out of range), on either setting of
`stickToHappyPath`. -/
theorem zero_variants_panic :
    (∀ loopVar : LoopVar,
      GenerateRoutes loopVar noResponsesAPI false false =
        [{ path := "/widgets", method := "GET",
           f := .handler noResponsesResource noResponses false,
           group := 0, resource := 0, action := 0, ex := 0 }]) ∧
    (∀ (r : HttpRequest) (t : String),
      (HandlerFunc.ServeHTTP (.handler noResponsesResource noResponses false) r).result t = none) ∧
    (∀ (r : HttpRequest) (t : String),
      (HandlerFunc.ServeHTTP (.handler noResponsesResource noResponses true) r).result t = none) :=
  ⟨fun loopVar => by cases loopVar <;> decide, fun _ _ => rfl, fun _ _ => rfl⟩

/-- C10, as stated, fails: with two control-client loops running, the second
loop takes the second Question from `askingQuestions` and sends it to its
client while the first Question has no Answer yet; two Questions are
outstanding. -/
theorem global_serialization_counterexample :
    run {} twoClients =
      some { askers := [.receiving, .receiving],
             loops := [.reading { Answers := buildAnswers okOrMissing.Responses },
                       .reading { Answers := buildAnswers sharedName.Responses }] } ∧
    (run {} twoClients).map outstanding = some 2 := by
  decide

/-- C10, amended: in every execution each run of `websocketHandler` holds at
most one Question at a time, so the Questions outstanding are exactly those
held by the runs that are not standing by, and their number never exceeds the
number of control-client loops started: at most one if only one was. -/
theorem per_loop_serialization (events : List Event) (s : Session)
    (h : run {} events = some s) :
    outstanding s = (s.loops.map LoopState.holding).sum ∧
    outstanding s ≤ s.loops.length ∧
    (s.loops.length ≤ 1 → outstanding s ≤ 1) := by
  have hb : s.balanced := run_balanced events {} s rfl h
  have hle := holding_sum_le s.loops
  unfold Session.balanced at hb
  unfold outstanding
  refine ⟨hb, ?_, ?_⟩ <;> omega

/-- Witness of the amended C10: one client, two requests; the second Question
waits until the Answer to the first has been delivered. -/
theorem per_loop_serialization_witness :
    run {} [.request { Answers := [] }, .request { Answers := [] }, .connect, .take 0 0,
            .message 0 "404"] =
      some { askers := [.receiving, .sending { Answers := [] }], loops := [.delivering "404"] } ∧
    outstanding { askers := [.receiving, .sending { Answers := [] }],
                  loops := [.delivering "404"] } ≤ 1 :=
  ⟨by decide,
   (per_loop_serialization
      [.request { Answers := [] }, .request { Answers := [] }, .connect, .take 0 0,
       .message 0 "404"] _ (by decide)).2.2 (by decide)⟩

end Goapi
